import Mathlib

/-!
# Verification of `tplx` (package `tplx`, file `tplx.go`)

Shallow embedding of the Go package `tplx`, a thin wrapper around the
`html/template` engine.  The wrapper consists of two operations:

* `NewRenderer(fsys, spec, funcs)` — builds, for every key `name` of the
  spec map, a composite template by reading and parsing each fragment file
  in order, layering each fragment's function map on top of the functions
  accumulated so far, and checking that some fragment is named after the
  composite (`tplx.go` lines 58–94).
* `Render(wr, name, data, funcs)` — looks the name up in the registry and
  delegates to the engine's `ExecuteTemplate` (`tplx.go` lines 104–114).

The template engine itself (`html/template`) is external to the repository,
so it is kept abstract: theorems are parametrised over a parse predicate
`Parse` (the engine's `Template.Parse`, whose success may depend on the
function map in effect, since the engine resolves function names at parse
time), an emptiness predicate `IsEmpty` (the engine's `parse.IsEmptyTree`
on the parsed body: white space and comments only), and an execution
function `Exec` (the engine's `ExecuteTemplate`, returning the bytes
written to the writer plus an optional error).  Per the engine's
documented `Parse` rule, a template definition whose body is empty in this
sense does not replace an existing template's body of the same name; a
non-empty body does.

Go maps are embedded as association lists; a Go map write prepends and a
read takes the first hit, which reproduces last-write-wins semantics.  The
shared function map of a group of associated templates (`Template.Funcs`
merges the argument over the current map, argument entries winning) is
likewise a list to which each `Funcs` call prepends its argument.
-/

namespace Tplx

/-- Values of template functions are kept opaque; only identity matters. -/
abbrev FuncVal := Nat

/-- `template.FuncMap`: finite map from function name to function value. -/
abbrev FuncMap := List (String × FuncVal)

/-- The opaque `data any` value handed to template execution. -/
abbrev Data := Nat

/-- First-hit association-list lookup: the embedding of a Go map read
(entries are prepended on write, so the first hit is the latest write). -/
def lookupAL {α : Type} : List (String × α) → String → Option α
  | [], _ => none
  | (k, v) :: rest, key => if k = key then some v else lookupAL rest key

/-- The file system `fs.FS`: a finite map from path to file contents. -/
abbrev FS := List (String × String)

/-- `fs.ReadFile fsys path` (`tplx.go` line 73): `none` is a read error. -/
def readFile (fsys : FS) (path : String) : Option String :=
  lookupAL fsys path

/-- `Meta` (`tplx.go` lines 42–46): one template fragment's name, file
path, and fragment-specific function map. -/
structure Meta where
  Name : String
  Path : String
  Funcs : FuncMap
deriving DecidableEq, Repr

/-- `Spec` (`tplx.go` line 35): map from top-level template name to its
fragment list, in one fixed iteration order of the Go map. -/
abbrev Spec := List (String × List Meta)

/-- The state of one `*template.Template` group: the set of named template
definitions installed by `Parse` (newest first) and the shared function
map (newest merge first). -/
structure Tmpl where
  defs : List (String × String)
  funcs : FuncMap
deriving DecidableEq, Repr

/-- The error values the package can return.  `fmt.Errorf("…: %w", err)`
becomes `wrapped msg err`; the engine's own errors are `engineParse` (a
`Template.Parse` failure on the given text) and `execFail` (an
`ExecuteTemplate` failure). -/
inductive Err
  | fsRead (path : String)
  | engineParse (text : String)
  | execFail (msg : String)
  | errInvalidSpec
  | errUnknownTemplate
  | wrapped (msg : String) (cause : Err)
deriving DecidableEq, Repr

/-- Whether an error is a `fmt.Errorf("…: %w", …)` wrapper adding context
around a cause. -/
def Err.isWrapped : Err → Bool
  | .wrapped _ _ => true
  | _ => false

/-- The engine's `Template.Parse` viewed abstractly: given the function
map in effect and the file text, does parsing succeed?  (The engine
resolves function names at parse time, hence the `FuncMap` argument.) -/
abbrev Parse := FuncMap → String → Bool

/-- The engine's `parse.IsEmptyTree` viewed abstractly: is the parsed body
of the given text empty (white space and comments only)?  The engine's
`Parse` does not let such a body replace an existing definition of the
same name. -/
abbrev IsEmpty := String → Bool

/-- The engine's `ExecuteTemplate` viewed abstractly: from the template
group, the name to execute and the data, produce the bytes written to the
writer and an optional execution error. -/
abbrev Exec := Tmpl → String → Data → String × Option String

/-- The inner loop of `NewRenderer` (`tplx.go` lines 64–84): for each
fragment, record whether it is named after the composite, read its file
(failing with the wrapped read error of line 75), merge its function map
onto the group's shared map (`t.New(meta.Name).Funcs(meta.Funcs)`), and
parse its text, returning the engine's error unwrapped (line 82) on
failure.  On success the definition is installed under `meta.Name`,
except that — per the engine's documented `Parse` rule — a body that is
empty (white space and comments only) does not replace an existing
definition of that name. -/
def buildLoop (parse : Parse) (isEmpty : IsEmpty) (fsys : FS) (name : String) :
    List Meta → Bool → Tmpl → Except Err (Bool × Tmpl)
  | [], inc, t => .ok (inc, t)
  | m :: ms, inc, t =>
    let inc' := inc || (m.Name == name)
    match readFile fsys m.Path with
    | none => .error (.wrapped "unable to read template file" (.fsRead m.Path))
    | some text =>
      let fm := m.Funcs ++ t.funcs
      if parse fm text then
        buildLoop parse isEmpty fsys name ms inc'
          { defs := if isEmpty text && (lookupAL t.defs m.Name).isSome then t.defs
                    else (m.Name, text) :: t.defs
            funcs := fm }
      else
        .error (.engineParse text)

/-- One iteration of `NewRenderer`'s outer loop for a single composite
(`tplx.go` lines 63–91): start from `template.New(name).Funcs(funcs)`
(empty definition set, global function map), run the fragment loop, and
fail with `ErrInvalidSpec` (line 87) when no fragment was named after the
composite. -/
def buildComposite (parse : Parse) (isEmpty : IsEmpty) (fsys : FS) (name : String)
    (ms : List Meta) (g : FuncMap) : Except Err Tmpl :=
  match buildLoop parse isEmpty fsys name ms false { defs := [], funcs := g } with
  | .error e => .error e
  | .ok (inc, t) => if inc then .ok t else .error .errInvalidSpec

/-- The registry `renderer.m` (`tplx.go` lines 26–28): map from top-level
template name to the built template group. -/
abbrev Renderer := List (String × Tmpl)

/-- `NewRenderer` (`tplx.go` lines 58–94): builds every composite of the
spec in iteration order, propagating the first error, and stores each
built group under its composite's name. -/
def NewRenderer (parse : Parse) (isEmpty : IsEmpty) (fsys : FS) :
    Spec → FuncMap → Except Err Renderer
  | [], _ => .ok []
  | (name, ms) :: rest, g =>
    match buildComposite parse isEmpty fsys name ms g with
    | .error e => .error e
    | .ok t =>
      match NewRenderer parse isEmpty fsys rest g with
      | .error e => .error e
      | .ok r => .ok ((name, t) :: r)

/-- `Render` (`tplx.go` lines 104–114): look the name up in the registry
(`ErrUnknownTemplate` when absent, before anything touches the writer),
otherwise delegate to the engine's `ExecuteTemplate`, wrapping an
execution error (line 111).  The result is the registry state after the
call, the bytes written to the writer, and the returned error.  Note that
the source never uses the `funcs` parameter. -/
def Render (exec : Exec) (r : Renderer) (name : String) (data : Data)
    (funcs : FuncMap) : Renderer × String × Except Err Unit :=
  match lookupAL r name with
  | none => (r, "", .error .errUnknownTemplate)
  | some t =>
    match exec t name data with
    | (out, some msg) => (r, out, .error (.wrapped "cannot render template" (.execFail msg)))
    | (out, none) => (r, out, .ok ())

/-- A sequence of `Render` calls against a registry, threading the
registry state from each call into the next and collecting each call's
written bytes and result. -/
def renderMany (exec : Exec) : Renderer → List (String × Data × FuncMap) →
    Renderer × List (String × Except Err Unit)
  | r, [] => (r, [])
  | r, (n, d, f) :: rest =>
    let step := Render exec r n d f
    let next := renderMany exec step.1 rest
    (next.1, step.2 :: next.2)

/-! ## Characterisations of the build loop -/

/-- The shared function map after the fragments of `ms` have each merged
their `Funcs` (in sequence order) on top of `g`. -/
def funcsAfter (g : FuncMap) (ms : List Meta) : FuncMap :=
  ms.foldl (fun acc m => m.Funcs ++ acc) g

/-- One fragment's install step on a definition set: the fragment's file
text goes in under the fragment's name, unless the body is empty (white
space and comments only) and a definition of that name already exists, in
which case the existing definition is kept — the engine's documented
`Parse` rule. -/
def installDef (isEmpty : IsEmpty) (fsys : FS) (d : List (String × String))
    (m : Meta) : List (String × String) :=
  if isEmpty ((readFile fsys m.Path).getD "") && (lookupAL d m.Name).isSome then d
  else (m.Name, (readFile fsys m.Path).getD "") :: d

/-- The definition set after the fragments of `ms` have each performed
their install step (in sequence order) on top of `d`. -/
def defsAfter (isEmpty : IsEmpty) (fsys : FS) (d : List (String × String))
    (ms : List Meta) : List (String × String) :=
  ms.foldl (installDef isEmpty fsys) d

/-- Every fragment of `ms` has a readable file whose text parses under the
function map in effect at its parse call, starting from map `e`. -/
def allFragsOk (parse : Parse) (fsys : FS) : FuncMap → List Meta → Bool
  | _, [] => true
  | e, m :: ms =>
    match readFile fsys m.Path with
    | none => false
    | some text => parse (m.Funcs ++ e) text && allFragsOk parse fsys (m.Funcs ++ e) ms

/-- Modelled from the spec: the "equivalent merged template set" of a
composite (spec §4.1 and §8) — each fragment's file text parsed into the
set under the fragment's name in sequence order, with each fragment's
functions merged on top of the global function map, fragment entries
taking precedence.  Since the spec delegates parsing to the engine, each
install follows the engine's `Parse` rule: a later definition replaces an
earlier one of the same name unless its body is empty (white space and
comments only), in which case the existing definition is kept. -/
def specMergedSet (isEmpty : IsEmpty) (fsys : FS) (g : FuncMap)
    (ms : List Meta) : Tmpl :=
  { defs := ms.foldl (fun d m =>
      if isEmpty ((readFile fsys m.Path).getD "") && (lookupAL d m.Name).isSome
      then d else (m.Name, (readFile fsys m.Path).getD "") :: d) []
    funcs := ms.foldl (fun e m => m.Funcs ++ e) g }

/-! ### Concrete engine instances and inputs used by witnesses -/

/-- An engine whose parser accepts every text. -/
def parseAll : Parse := fun _ _ => true

/-- An engine whose parser rejects exactly the text `"BAD"`. -/
def parseNoBad : Parse := fun _ s => !(s == "BAD")

/-- An engine whose execution writes the looked-up definition of the
requested name and never fails. -/
def execEmit : Exec := fun t nm _ => ((lookupAL t.defs nm).getD "", none)

/-- A file system holding one unparseable file. -/
def fsBad : FS := [("a.tmpl", "BAD")]

/-- A spec whose only composite's only fragment is the unparseable file. -/
def specBad : Spec := [("a", [⟨"a", "a.tmpl", []⟩])]

/-- A two-fragment file system for the well-formed examples. -/
def fsGood : FS := [("page.tmpl", "Hello"), ("header.tmpl", "Hdr")]

/-- A well-formed spec: composite `page` with a self-named fragment. -/
def specGood : Spec := [("page", [⟨"page", "page.tmpl", []⟩, ⟨"header", "header.tmpl", []⟩])]

/-- A composite with no self-named fragment and an unreadable path. -/
def specNoEntry : Spec := [("a", [⟨"header", "h.tmpl", []⟩])]

/-- A file system in which `specNoEntry`'s path is readable. -/
def fsH : FS := [("h.tmpl", "X")]

/-- A spec whose second composite has an empty fragment list, while the
first composite's fragment has an unreadable path. -/
def specEmptyB : Spec := [("a", [⟨"a", "h.tmpl", []⟩]), ("b", [])]

/-- A file system for the duplicate-name example. -/
def fsDup : FS := [("p1", "A"), ("p2", "B")]

/-- An engine classifying exactly the empty text as an empty body. -/
def isEmptyBlank : IsEmpty := fun s => s == ""

/-- A file system for the duplicate-name example in which the second
file's body is empty. -/
def fsDup2 : FS := [("p1", "A"), ("p2", "")]

theorem lookupAL_append {α : Type} (l₁ l₂ : List (String × α)) (k : String) :
    lookupAL (l₁ ++ l₂) k =
      match lookupAL l₁ k with
      | some v => some v
      | none => lookupAL l₂ k := by
  induction l₁ with
  | nil => simp [lookupAL]
  | cons p rest ih =>
    obtain ⟨k', v'⟩ := p
    by_cases h : k' = k <;> simp [lookupAL, h, ih]

theorem lookupAL_append_left {α : Type} {l₁ : List (String × α)} {k : String}
    {v : α} (h : lookupAL l₁ k = some v) (l₂ : List (String × α)) :
    lookupAL (l₁ ++ l₂) k = some v := by
  rw [lookupAL_append, h]

theorem lookupAL_append_right {α : Type} {l₁ : List (String × α)} {k : String}
    (h : lookupAL l₁ k = none) (l₂ : List (String × α)) :
    lookupAL (l₁ ++ l₂) k = lookupAL l₂ k := by
  rw [lookupAL_append, h]

theorem funcsAfter_append (g : FuncMap) (xs ys : List Meta) :
    funcsAfter g (xs ++ ys) = funcsAfter (funcsAfter g xs) ys := by
  simp [funcsAfter, List.foldl_append]

theorem defsAfter_append (isEmpty : IsEmpty) (fsys : FS)
    (d : List (String × String)) (xs ys : List Meta) :
    defsAfter isEmpty fsys d (xs ++ ys) =
      defsAfter isEmpty fsys (defsAfter isEmpty fsys d xs) ys := by
  simp [defsAfter, List.foldl_append]

theorem funcsAfter_cons (g : FuncMap) (m : Meta) (ms : List Meta) :
    funcsAfter g (m :: ms) = funcsAfter (m.Funcs ++ g) ms := rfl

theorem defsAfter_cons (isEmpty : IsEmpty) (fsys : FS)
    (d : List (String × String)) (m : Meta) (ms : List Meta) :
    defsAfter isEmpty fsys d (m :: ms) =
      defsAfter isEmpty fsys (installDef isEmpty fsys d m) ms := rfl

/-- An install step for a fragment not named `nm` leaves the lookup of
`nm` unchanged, whether or not the step replaced anything. -/
theorem lookupAL_installDef_ne {isEmpty : IsEmpty} {fsys : FS}
    {d : List (String × String)} {m : Meta} {nm : String} (h : m.Name ≠ nm) :
    lookupAL (installDef isEmpty fsys d m) nm = lookupAL d nm := by
  rw [installDef]
  by_cases hc : isEmpty ((readFile fsys m.Path).getD "") &&
      (lookupAL d m.Name).isSome
  · rw [if_pos hc]
  · rw [if_neg hc, lookupAL, if_neg h]

/-- Fragments none of which bind `k` leave the lookup of `k` in the shared
function map unchanged. -/
theorem lookup_funcsAfter_none {k : String} :
    ∀ (ms : List Meta) (e : FuncMap), (∀ m ∈ ms, lookupAL m.Funcs k = none) →
      lookupAL (funcsAfter e ms) k = lookupAL e k
  | [], _, _ => rfl
  | m :: ms, e, h => by
    have hm := h m (by simp)
    have hrest := lookup_funcsAfter_none ms (m.Funcs ++ e)
      (fun m' hm' => h m' (List.mem_cons_of_mem _ hm'))
    simpa [funcsAfter, lookupAL_append_right hm] using hrest

/-- Fragments none of which are named `nm` leave the lookup of `nm` in the
definition set unchanged. -/
theorem lookup_defsAfter_none (isEmpty : IsEmpty) (fsys : FS) {nm : String} :
    ∀ (ms : List Meta) (d : List (String × String)), (∀ m ∈ ms, m.Name ≠ nm) →
      lookupAL (defsAfter isEmpty fsys d ms) nm = lookupAL d nm
  | [], _, _ => rfl
  | m :: ms, d, h => by
    have hm := h m (by simp)
    have hrest := lookup_defsAfter_none isEmpty fsys ms
      (installDef isEmpty fsys d m)
      (fun m' hm' => h m' (List.mem_cons_of_mem _ hm'))
    rw [defsAfter_cons, hrest, lookupAL_installDef_ne hm]

/-- When every fragment reads and parses, the build loop succeeds and
produces exactly the accumulated definition set and function map, with the
entry-point flag reflecting whether some fragment carries the composite's
name. -/
theorem buildLoop_ok_of_allFragsOk (parse : Parse) (isEmpty : IsEmpty)
    (fsys : FS) (name : String) :
    ∀ (ms : List Meta) (inc : Bool) (d : List (String × String)) (e : FuncMap),
      allFragsOk parse fsys e ms = true →
      buildLoop parse isEmpty fsys name ms inc ⟨d, e⟩ =
        .ok (inc || ms.any (fun m => m.Name == name),
             ⟨defsAfter isEmpty fsys d ms, funcsAfter e ms⟩) := by
  intro ms
  induction ms with
  | nil => intro inc d e _; simp [buildLoop, defsAfter, funcsAfter]
  | cons m ms ih =>
    intro inc d e h
    cases hr : readFile fsys m.Path with
    | none => rw [allFragsOk, hr] at h; exact absurd h (by simp)
    | some text =>
      rw [allFragsOk, hr, Bool.and_eq_true] at h
      obtain ⟨hp, hrest⟩ := h
      simp only [buildLoop, hr, hp, if_true]
      rw [ih _ _ _ hrest]
      simp [defsAfter, installDef, funcsAfter, hr, Bool.or_assoc]

/-- A successful build loop always leaves the accumulated definition set,
function map and entry-point flag in the shape of `defsAfter`,
`funcsAfter` and `List.any`. -/
theorem buildLoop_ok_shape (parse : Parse) (isEmpty : IsEmpty) (fsys : FS)
    (name : String) :
    ∀ (ms : List Meta) (inc inc₂ : Bool) (d : List (String × String)) (e : FuncMap)
      (t₂ : Tmpl),
      buildLoop parse isEmpty fsys name ms inc ⟨d, e⟩ = .ok (inc₂, t₂) →
      t₂ = ⟨defsAfter isEmpty fsys d ms, funcsAfter e ms⟩ ∧
        inc₂ = (inc || ms.any (fun m => m.Name == name)) := by
  intro ms
  induction ms with
  | nil =>
    intro inc inc₂ d e t₂ h
    simp only [buildLoop, Except.ok.injEq, Prod.mk.injEq] at h
    obtain ⟨h1, h2⟩ := h
    simp [← h1, ← h2, defsAfter, funcsAfter]
  | cons m ms ih =>
    intro inc inc₂ d e t₂ h
    cases hr : readFile fsys m.Path with
    | none => simp [buildLoop, hr] at h
    | some text =>
      simp only [buildLoop, hr] at h
      by_cases hp : parse (m.Funcs ++ e) text
      · rw [if_pos hp] at h
        obtain ⟨h1, h2⟩ := ih _ _ _ _ _ h
        refine ⟨?_, ?_⟩
        · simp [h1, defsAfter, installDef, funcsAfter, hr]
        · simp [h2, Bool.or_assoc]
      · rw [if_neg hp] at h
        exact absurd h (by simp)

/-- Splitting the fragment list splits the build loop. -/
theorem buildLoop_append (parse : Parse) (isEmpty : IsEmpty) (fsys : FS)
    (name : String) :
    ∀ (xs ys : List Meta) (inc : Bool) (t : Tmpl),
      buildLoop parse isEmpty fsys name (xs ++ ys) inc t =
        match buildLoop parse isEmpty fsys name xs inc t with
        | .error e => .error e
        | .ok (inc', t') => buildLoop parse isEmpty fsys name ys inc' t' := by
  intro xs
  induction xs with
  | nil => intro ys inc t; simp [buildLoop]
  | cons m xs ih =>
    intro ys inc t
    simp only [List.cons_append, buildLoop]
    cases hr : readFile fsys m.Path with
    | none => simp
    | some text =>
      by_cases hp : parse (m.Funcs ++ t.funcs) text
      · simp only [hp, if_true]; exact ih _ _ _
      · simp [hp]

/-- A composite whose fragments all read and parse, and which contains a
fragment named after itself, builds to exactly the accumulated definition
set and function map. -/
theorem buildComposite_ok_of {parse : Parse} {isEmpty : IsEmpty} {fsys : FS}
    {name : String} {ms : List Meta} {g : FuncMap}
    (hok : allFragsOk parse fsys g ms = true)
    (hinc : ms.any (fun m => m.Name == name) = true) :
    buildComposite parse isEmpty fsys name ms g =
      .ok ⟨defsAfter isEmpty fsys [] ms, funcsAfter g ms⟩ := by
  rw [buildComposite,
    buildLoop_ok_of_allFragsOk parse isEmpty fsys name ms false [] g hok]
  simp [hinc]

/-- A composite whose fragments all read and parse but which contains no
fragment named after itself fails with `ErrInvalidSpec`. -/
theorem buildComposite_invalid_of {parse : Parse} {isEmpty : IsEmpty}
    {fsys : FS} {name : String} {ms : List Meta} {g : FuncMap}
    (hok : allFragsOk parse fsys g ms = true)
    (hinc : ms.any (fun m => m.Name == name) = false) :
    buildComposite parse isEmpty fsys name ms g = .error .errInvalidSpec := by
  rw [buildComposite,
    buildLoop_ok_of_allFragsOk parse isEmpty fsys name ms false [] g hok]
  simp [hinc]

/-- A successfully built composite always has the shape given by
`defsAfter` and `funcsAfter`. -/
theorem buildComposite_ok_shape {parse : Parse} {isEmpty : IsEmpty}
    {fsys : FS} {name : String} {ms : List Meta} {g : FuncMap} {t : Tmpl}
    (h : buildComposite parse isEmpty fsys name ms g = .ok t) :
    t = ⟨defsAfter isEmpty fsys [] ms, funcsAfter g ms⟩ := by
  rw [buildComposite] at h
  cases hb : buildLoop parse isEmpty fsys name ms false ⟨[], g⟩ with
  | error e => rw [hb] at h; exact absurd h (by simp)
  | ok p =>
    obtain ⟨inc₂, t₂⟩ := p
    rw [hb] at h
    obtain ⟨h1, _⟩ :=
      buildLoop_ok_shape parse isEmpty fsys name ms false inc₂ [] g t₂ hb
    by_cases hinc : inc₂ = true
    · rw [hinc] at h; simp at h; rw [← h, h1]
    · simp [hinc] at h

/-- When every composite of the spec has all fragments readable and
parseable and contains a self-named fragment, `NewRenderer` succeeds and
the registry associates each composite name, in spec order, with its
accumulated template group. -/
theorem newRenderer_ok_of {parse : Parse} {isEmpty : IsEmpty} {fsys : FS}
    {g : FuncMap} :
    ∀ (spec : Spec),
      (∀ p ∈ spec, allFragsOk parse fsys g p.2 = true ∧
        p.2.any (fun m => m.Name == p.1) = true) →
      NewRenderer parse isEmpty fsys spec g =
        .ok (spec.map fun p =>
          (p.1, ⟨defsAfter isEmpty fsys [] p.2, funcsAfter g p.2⟩))
  | [], _ => rfl
  | (n₀, ms₀) :: rest, h => by
    obtain ⟨hok, hinc⟩ := h (n₀, ms₀) (by simp)
    have hrest : NewRenderer parse isEmpty fsys rest g =
        .ok (rest.map fun p =>
          (p.1, ⟨defsAfter isEmpty fsys [] p.2, funcsAfter g p.2⟩)) :=
      newRenderer_ok_of rest (fun p hp => h p (List.mem_cons_of_mem _ hp))
    simp only [NewRenderer, buildComposite_ok_of hok hinc, hrest, List.map_cons]

/-- When every composite of the spec has all fragments readable and
parseable and some composite lacks a self-named fragment, `NewRenderer`
fails with `ErrInvalidSpec`. -/
theorem newRenderer_invalid_of {parse : Parse} {isEmpty : IsEmpty}
    {fsys : FS} {g : FuncMap} {name : String} {ms : List Meta} :
    ∀ (spec : Spec),
      (∀ p ∈ spec, allFragsOk parse fsys g p.2 = true) →
      (name, ms) ∈ spec →
      ms.any (fun m => m.Name == name) = false →
      NewRenderer parse isEmpty fsys spec g = .error .errInvalidSpec
  | [], _, hmem, _ => absurd hmem (by simp)
  | (n₀, ms₀) :: rest, h, hmem, hbad => by
    by_cases hinc : ms₀.any (fun m => m.Name == n₀) = true
    · have hok := h (n₀, ms₀) (by simp)
      have hmem' : (name, ms) ∈ rest := by
        rcases List.mem_cons.mp hmem with heq | hmem'
        · obtain ⟨e1, e2⟩ := Prod.mk.injEq name ms n₀ ms₀ ▸ heq
          rw [← e1, ← e2] at hinc
          rw [hinc] at hbad
          exact absurd hbad (by simp)
        · exact hmem'
      have hrest : NewRenderer parse isEmpty fsys rest g =
          .error .errInvalidSpec :=
        newRenderer_invalid_of rest
          (fun p hp => h p (List.mem_cons_of_mem _ hp)) hmem' hbad
      simp only [NewRenderer, buildComposite_ok_of hok hinc, hrest]
    · have hok := h (n₀, ms₀) (by simp)
      simp only [NewRenderer,
        buildComposite_invalid_of hok (Bool.eq_false_iff.mpr hinc)]

/-- In a registry built from a spec with distinct composite names, each
composite name looks up to its accumulated template group. -/
theorem newRenderer_ok_lookup {parse : Parse} {isEmpty : IsEmpty}
    {fsys : FS} {g : FuncMap} :
    ∀ {spec : Spec} {r : Renderer} {name : String} {ms : List Meta},
      NewRenderer parse isEmpty fsys spec g = .ok r → (name, ms) ∈ spec →
      (spec.map Prod.fst).Nodup →
      lookupAL r name = some ⟨defsAfter isEmpty fsys [] ms, funcsAfter g ms⟩
  | [], r, name, ms, _, hmem, _ => absurd hmem (by simp)
  | (n₀, ms₀) :: rest, r, name, ms, h, hmem, hnd => by
    simp only [NewRenderer] at h
    cases hb : buildComposite parse isEmpty fsys n₀ ms₀ g with
    | error e => rw [hb] at h; exact absurd h (by simp)
    | ok t₀ =>
      rw [hb] at h
      cases hrest : NewRenderer parse isEmpty fsys rest g with
      | error e => rw [hrest] at h; exact absurd h (by simp)
      | ok r' =>
        rw [hrest] at h
        have hr : r = (n₀, t₀) :: r' := by
          simpa using h.symm
        rcases List.mem_cons.mp hmem with heq | hmem'
        · obtain ⟨e1, e2⟩ := Prod.mk.injEq name ms n₀ ms₀ ▸ heq
          have hb' : buildComposite parse isEmpty fsys name ms g = .ok t₀ := by
            rw [e1, e2]; exact hb
          rw [hr, ← e1, lookupAL]
          simp [buildComposite_ok_shape hb']
        · have hne : n₀ ≠ name := by
            intro hcontra
            have : name ∈ rest.map Prod.fst := by
              exact List.mem_map_of_mem Prod.fst hmem'
            rw [← hcontra] at this
            exact (List.nodup_cons.mp (by simpa using hnd)).1 this
          rw [hr, lookupAL, if_neg hne]
          exact newRenderer_ok_lookup hrest hmem'
            (List.Nodup.of_cons (by simpa using hnd))

/-- A `Render` call on a name whose lookup yields template group `t`
delegates to the engine: on a clean execution it returns the engine's
output and success. -/
theorem render_lookup_some (exec : Exec) (r : Renderer) (name : String)
    (data : Data) (funcs : FuncMap) (t : Tmpl) (out : String)
    (hlk : lookupAL r name = some t) (hex : exec t name data = (out, none)) :
    Render exec r name data funcs = (r, out, .ok ()) := by
  simp only [Render, hlk, hex]

/-! ## The claims -/

/-- C1: the claim states that the functions supplied in the
`extraFunctions` (`funcs`) argument of `Render` are visible to the
template during that render call.  In the source (`tplx.go` lines
104–114) the `funcs` parameter is never used: `ExecuteTemplate` is called
without installing it, so the render result — registry state, bytes
written, and error — is identical whatever function map is supplied.  The
extra functions therefore cannot be visible to the template, contradicting
the parameter's own documentation ("the funcs parameter provides
additional template functions"). -/
theorem render_result_independent_of_funcs (exec : Exec) (r : Renderer)
    (name : String) (data : Data) (funcs₁ funcs₂ : FuncMap) :
    Render exec r name data funcs₁ = Render exec r name data funcs₂ := rfl

/-- C2 (counterexample): a spec whose only fragment's text fails to parse.
`NewRenderer` returns the engine's parse error itself (`tplx.go` line 82:
`return nil, err`), not an error wrapping it with added context, refuting
the claim that every build error — in particular a parse failure — is
wrapped with context around a preserved cause. -/
theorem build_parse_error_not_wrapped_cex :
    NewRenderer parseNoBad isEmptyBlank fsBad specBad [] =
      .error (Err.engineParse "BAD") ∧
    Err.isWrapped (Err.engineParse "BAD") = false :=
  ⟨rfl, rfl⟩

/-- C2 (amended): when a fragment's file is readable but its text fails to
parse (the build having succeeded up to that fragment), `NewRenderer`
returns the engine's parse error directly, without any added wrapping
context; only read errors (and render-time errors) are wrapped. -/
theorem build_parse_error_returned_unwrapped (parse : Parse)
    (isEmpty : IsEmpty) (fsys : FS) (g : FuncMap) (name : String)
    (pre post : List Meta) (m : Meta) (restSpec : Spec) (txt : String)
    (inc' : Bool) (t' : Tmpl)
    (h0 : buildLoop parse isEmpty fsys name pre false ⟨[], g⟩ = .ok (inc', t'))
    (hr : readFile fsys m.Path = some txt)
    (hp : parse (m.Funcs ++ t'.funcs) txt = false) :
    NewRenderer parse isEmpty fsys ((name, pre ++ m :: post) :: restSpec) g =
      .error (Err.engineParse txt) ∧
    Err.isWrapped (Err.engineParse txt) = false := by
  refine ⟨?_, rfl⟩
  have hloop :
      buildLoop parse isEmpty fsys name (pre ++ m :: post) false ⟨[], g⟩ =
        .error (Err.engineParse txt) := by
    rw [buildLoop_append, h0]
    simp [buildLoop, hr, hp]
  simp [NewRenderer, buildComposite, hloop]

/-- Witness for C2 (amended) at a concrete spec, file system and engine. -/
theorem build_parse_error_returned_unwrapped_witness :
    NewRenderer parseNoBad isEmptyBlank fsBad [("b", [⟨"b", "a.tmpl", []⟩])] [] =
      .error (Err.engineParse "BAD") ∧
    Err.isWrapped (Err.engineParse "BAD") = false :=
  build_parse_error_returned_unwrapped parseNoBad isEmptyBlank fsBad [] "b"
    [] [] ⟨"b", "a.tmpl", []⟩ [] "BAD" false ⟨[], []⟩ rfl rfl rfl

/-- C3: for a spec in which every composite's fragment list contains a
self-named fragment and every listed path is readable with text that
parses, `NewRenderer` succeeds and the registry's keys are exactly the
spec's composite names (in spec order). -/
theorem build_ok_keys_exact (parse : Parse) (isEmpty : IsEmpty) (fsys : FS)
    (g : FuncMap) (spec : Spec)
    (h : ∀ p ∈ spec, allFragsOk parse fsys g p.2 = true ∧
      p.2.any (fun m => m.Name == p.1) = true) :
    NewRenderer parse isEmpty fsys spec g =
      .ok (spec.map fun p =>
        (p.1, ⟨defsAfter isEmpty fsys [] p.2, funcsAfter g p.2⟩)) ∧
    (spec.map fun p =>
        ((p.1, (⟨defsAfter isEmpty fsys [] p.2, funcsAfter g p.2⟩ : Tmpl)) :
          String × Tmpl)).map Prod.fst = spec.map Prod.fst := by
  refine ⟨newRenderer_ok_of spec h, ?_⟩
  simp

/-- Witness for C3 at a concrete spec and file system. -/
theorem build_ok_keys_exact_witness :
    (∀ p ∈ specGood, allFragsOk parseAll fsGood [] p.2 = true ∧
      p.2.any (fun m => m.Name == p.1) = true) ∧
    (NewRenderer parseAll isEmptyBlank fsGood specGood [] =
      .ok (specGood.map fun p =>
        (p.1, ⟨defsAfter isEmptyBlank fsGood [] p.2, funcsAfter [] p.2⟩)) ∧
    (specGood.map fun p =>
        ((p.1, (⟨defsAfter isEmptyBlank fsGood [] p.2, funcsAfter [] p.2⟩ : Tmpl)) :
          String × Tmpl)).map Prod.fst = specGood.map Prod.fst) :=
  ⟨by decide,
    build_ok_keys_exact parseAll isEmptyBlank fsGood [] specGood (by decide)⟩

/-- C4 (counterexample): a spec whose only composite lacks a self-named
fragment but whose fragment's path is unreadable.  Build fails with the
wrapped read error, not with `ErrInvalidSpec`, refuting the claim that
every spec with a composite lacking a self-named fragment fails with
`InvalidSpecError`. -/
theorem build_missing_entry_not_invalidspec_cex :
    (specNoEntry.all fun p => p.2.all fun m => !(m.Name == p.1)) = true ∧
    NewRenderer parseAll isEmptyBlank [] specNoEntry [] =
      .error (Err.wrapped "unable to read template file" (Err.fsRead "h.tmpl")) ∧
    Err.wrapped "unable to read template file" (Err.fsRead "h.tmpl") ≠
      Err.errInvalidSpec :=
  ⟨rfl, rfl, by decide⟩

/-- C4 (amended): for a spec in which some composite's fragment list has
no self-named fragment, and in which every listed path is readable with
text that parses, `NewRenderer` fails with `ErrInvalidSpec` and returns no
registry. -/
theorem build_missing_entry_invalidspec (parse : Parse) (isEmpty : IsEmpty)
    (fsys : FS) (g : FuncMap) (spec : Spec) (name : String) (ms : List Meta)
    (hall : ∀ p ∈ spec, allFragsOk parse fsys g p.2 = true)
    (hmem : (name, ms) ∈ spec)
    (hbad : ms.any (fun m => m.Name == name) = false) :
    NewRenderer parse isEmpty fsys spec g = .error Err.errInvalidSpec :=
  newRenderer_invalid_of spec hall hmem hbad

/-- Witness for C4 (amended): the same entry-point-free composite with its
fragment file readable. -/
theorem build_missing_entry_invalidspec_witness :
    (∀ p ∈ specNoEntry, allFragsOk parseAll fsH [] p.2 = true) ∧
    (("a", [(⟨"header", "h.tmpl", []⟩ : Meta)]) ∈ specNoEntry) ∧
    ([(⟨"header", "h.tmpl", []⟩ : Meta)].any (fun m => m.Name == "a") = false) ∧
    NewRenderer parseAll isEmptyBlank fsH specNoEntry [] =
      .error Err.errInvalidSpec :=
  ⟨by decide, by decide, by decide,
    build_missing_entry_invalidspec parseAll isEmptyBlank fsH [] specNoEntry
      "a" [⟨"header", "h.tmpl", []⟩] (by decide) (by decide) (by decide)⟩

/-- C5: rendering a name absent from the registry fails with
`ErrUnknownTemplate`, leaves the registry unchanged and writes no bytes to
the writer — the result is the same for every engine execution function,
so the writer is never invoked. -/
theorem render_unknown_name (parse : Parse) (isEmpty : IsEmpty) (fsys : FS)
    (spec : Spec) (g : FuncMap) (exec : Exec) (r : Renderer) (name : String)
    (data : Data) (funcs : FuncMap)
    (hb : NewRenderer parse isEmpty fsys spec g = .ok r)
    (hn : lookupAL r name = none) :
    Render exec r name data funcs = (r, "", .error Err.errUnknownTemplate) := by
  rw [Render, hn]

/-- Witness for C5 on the registry built from the empty spec. -/
theorem render_unknown_name_witness :
    NewRenderer parseAll isEmptyBlank [] [] [] = .ok [] ∧
    lookupAL ([] : Renderer) "x" = none ∧
    Render execEmit [] "x" 0 [] = ([], "", .error Err.errUnknownTemplate) :=
  ⟨rfl, rfl,
    render_unknown_name parseAll isEmptyBlank [] [] [] execEmit [] "x" 0 []
      rfl rfl⟩

/-- C6: when fragment `m` of a composite and the global function map both
bind the name `k`, the fragment's binding wins: the shared function map in
effect at `m`'s parse call (`m.Funcs` merged onto the map accumulated over
the preceding fragments `pre`) resolves `k` to `m`'s value, and — when no
later fragment rebinds `k` — so does the built composite's final function
map used at execution. -/
theorem fragment_funcs_take_precedence (parse : Parse) (isEmpty : IsEmpty)
    (fsys : FS) (g : FuncMap) (name : String) (pre post : List Meta) (m : Meta)
    (k : String) (v w : FuncVal) (inc' : Bool) (t' tf : Tmpl)
    (hk : lookupAL m.Funcs k = some v)
    (hg : lookupAL g k = some w)
    (h0 : buildLoop parse isEmpty fsys name pre false ⟨[], g⟩ = .ok (inc', t'))
    (hb : buildComposite parse isEmpty fsys name (pre ++ m :: post) g = .ok tf)
    (hpost : ∀ m₂ ∈ post, lookupAL m₂.Funcs k = none) :
    lookupAL (m.Funcs ++ t'.funcs) k = some v ∧
    lookupAL tf.funcs k = some v := by
  refine ⟨lookupAL_append_left hk _, ?_⟩
  rw [buildComposite_ok_shape hb]
  show lookupAL (funcsAfter g (pre ++ m :: post)) k = some v
  rw [funcsAfter_append, funcsAfter_cons, lookup_funcsAfter_none _ _ hpost]
  exact lookupAL_append_left hk _

/-- Witness for C6: global `f ↦ 0`, fragment-specific `f ↦ 1`. -/
theorem fragment_funcs_take_precedence_witness :
    lookupAL [("f", 1)] "f" = some 1 ∧
    lookupAL [("f", 0)] "f" = some 0 ∧
    buildComposite parseAll isEmptyBlank fsH "a"
        [⟨"a", "h.tmpl", [("f", 1)]⟩] [("f", 0)] =
      .ok ⟨[("a", "X")], [("f", 1), ("f", 0)]⟩ ∧
    (lookupAL ([("f", 1)] ++ (⟨[], [("f", 0)]⟩ : Tmpl).funcs) "f" = some 1 ∧
      lookupAL (⟨[("a", "X")], [("f", 1), ("f", 0)]⟩ : Tmpl).funcs "f" = some 1) :=
  ⟨rfl, rfl, rfl,
    fragment_funcs_take_precedence parseAll isEmptyBlank fsH [("f", 0)] "a" []
      [] ⟨"a", "h.tmpl", [("f", 1)]⟩ "f" 1 0 false ⟨[], [("f", 0)]⟩
      ⟨[("a", "X")], [("f", 1), ("f", 0)]⟩ rfl rfl rfl rfl
      (by intro m₂ hm; exact absurd hm (by simp))⟩

/-- C7: for a registry successfully built from a spec with distinct
composite names, rendering a known composite name with well-formed data
writes exactly the bytes the engine produces when invoked directly on the
spec's equivalent merged template set for that composite (`specMergedSet`)
with the same entry-point name and data — the layer adds nothing to the
output. -/
theorem render_refines_direct_engine (parse : Parse) (isEmpty : IsEmpty)
    (fsys : FS) (g : FuncMap) (spec : Spec) (r : Renderer) (exec : Exec)
    (name : String) (ms : List Meta) (data : Data) (extra : FuncMap)
    (hb : NewRenderer parse isEmpty fsys spec g = .ok r)
    (hmem : (name, ms) ∈ spec)
    (hnd : (spec.map Prod.fst).Nodup)
    (hwf : (exec (specMergedSet isEmpty fsys g ms) name data).2 = none) :
    Render exec r name data extra =
      (r, (exec (specMergedSet isEmpty fsys g ms) name data).1, .ok ()) := by
  have hlk : lookupAL r name = some (specMergedSet isEmpty fsys g ms) :=
    newRenderer_ok_lookup hb hmem hnd
  cases hexec : exec (specMergedSet isEmpty fsys g ms) name data with
  | mk out oe =>
    cases oe with
    | some msg => rw [hexec] at hwf; simp at hwf
    | none => exact render_lookup_some exec r name data extra _ out hlk hexec

/-- Witness for C7 on the concrete well-formed example. -/
theorem render_refines_direct_engine_witness :
    NewRenderer parseAll isEmptyBlank fsGood specGood [] =
      .ok [("page", ⟨[("header", "Hdr"), ("page", "Hello")], []⟩)] ∧
    ("page", [(⟨"page", "page.tmpl", []⟩ : Meta), ⟨"header", "header.tmpl", []⟩]) ∈ specGood ∧
    (specGood.map Prod.fst).Nodup ∧
    (execEmit (specMergedSet isEmptyBlank fsGood []
      [⟨"page", "page.tmpl", []⟩, ⟨"header", "header.tmpl", []⟩]) "page" 0).2 = none ∧
    Render execEmit [("page", ⟨[("header", "Hdr"), ("page", "Hello")], []⟩)]
        "page" 0 [] =
      ([("page", ⟨[("header", "Hdr"), ("page", "Hello")], []⟩)],
        (execEmit (specMergedSet isEmptyBlank fsGood []
          [⟨"page", "page.tmpl", []⟩, ⟨"header", "header.tmpl", []⟩]) "page" 0).1,
        .ok ()) :=
  ⟨rfl, by decide, by decide, rfl,
    render_refines_direct_engine parseAll isEmptyBlank fsGood [] specGood
      [("page", ⟨[("header", "Hdr"), ("page", "Hello")], []⟩)]
      execEmit "page" [⟨"page", "page.tmpl", []⟩, ⟨"header", "header.tmpl", []⟩]
      0 [] rfl (by decide) (by decide) rfl⟩

/-- C8: a `Render` call returns the registry it was given, so any sequence
of render calls — whatever the writers, names, data and function
arguments — leaves the registry's name-to-template mapping unchanged. -/
theorem render_never_mutates_registry (exec : Exec) (r : Renderer)
    (calls : List (String × Data × FuncMap)) :
    (renderMany exec r calls).1 = r := by
  induction calls generalizing r with
  | nil => rfl
  | cons c rest ih =>
    obtain ⟨n, d, f⟩ := c
    have hfst : (Render exec r n d f).1 = r := by
      rw [Render]
      split
      · rfl
      · split <;> rfl
    simp only [renderMany]
    rw [ih, hfst]

/-- C9 (counterexample): a spec containing a composite (`"b"`) with an
empty fragment list, alongside a composite whose fragment path is
unreadable.  Build fails with the wrapped read error, not
`ErrInvalidSpec`, refuting the claim that every spec containing an
empty-fragment-list composite fails with `InvalidSpecError`. -/
theorem build_empty_fragments_not_invalidspec_cex :
    (("b", ([] : List Meta)) ∈ specEmptyB) ∧
    NewRenderer parseAll isEmptyBlank [] specEmptyB [] =
      .error (Err.wrapped "unable to read template file" (Err.fsRead "h.tmpl")) ∧
    Err.wrapped "unable to read template file" (Err.fsRead "h.tmpl") ≠
      Err.errInvalidSpec :=
  ⟨by decide, rfl, by decide⟩

/-- C9 (amended): for a spec containing a composite with an empty fragment
list, where every listed path in the spec is readable with text that
parses, `NewRenderer` fails with `ErrInvalidSpec`: the entry-point flag
starts false and no fragment can set it. -/
theorem build_empty_fragments_invalidspec (parse : Parse) (isEmpty : IsEmpty)
    (fsys : FS) (g : FuncMap) (spec : Spec) (name : String)
    (hall : ∀ p ∈ spec, allFragsOk parse fsys g p.2 = true)
    (hmem : (name, ([] : List Meta)) ∈ spec) :
    NewRenderer parse isEmpty fsys spec g = .error Err.errInvalidSpec :=
  newRenderer_invalid_of spec hall hmem rfl

/-- Witness for C9 (amended) on a one-composite spec with an empty
fragment list. -/
theorem build_empty_fragments_invalidspec_witness :
    (∀ p ∈ [(("b", ([] : List Meta)) : String × List Meta)],
      allFragsOk parseAll [] [] p.2 = true) ∧
    (("b", ([] : List Meta)) ∈ [(("b", ([] : List Meta)) : String × List Meta)]) ∧
    NewRenderer parseAll isEmptyBlank [] [("b", [])] [] =
      .error Err.errInvalidSpec :=
  ⟨by decide, by decide,
    build_empty_fragments_invalidspec parseAll isEmptyBlank [] [] [("b", [])]
      "b" (by decide) (by decide)⟩

/-- C10 (counterexample): two fragments both named `page`, the later one
backed by a file whose body is empty.  Build succeeds, but — per the
engine's documented `Parse` rule that an empty body does not replace an
existing definition — the built composite's definition under `page` is the
earlier fragment's text `"A"`, not the later fragment's text `""`,
refuting the claim that the later fragment's parsed text unconditionally
replaces the earlier definition. -/
theorem duplicate_fragment_last_wins_cex :
    buildComposite parseAll isEmptyBlank fsDup2 "page"
        [⟨"page", "p1", []⟩, ⟨"page", "p2", []⟩] [] =
      .ok ⟨[("page", "A")], []⟩ ∧
    lookupAL [("page", "A")] "page" = some "A" ∧
    (readFile fsDup2 "p2").getD "" = "" ∧
    some "A" ≠ some ((readFile fsDup2 "p2").getD "") :=
  ⟨rfl, rfl, rfl, by decide⟩

/-- C10 (amended): a composite whose fragment list contains two fragments
with the same name `nm` (here `m₁` before `m₂`, with `m₂` the last
fragment of that name) still builds successfully when its files read and
parse and a self-named fragment exists; and provided the last such
fragment's body is not empty (white space and comments only), its text
replaces the earlier definition and the built composite's definition under
`nm` — the one rendering uses — is that last fragment's text.  (An
empty-bodied later duplicate leaves the earlier definition in place.) -/
theorem duplicate_fragment_last_nonempty_wins (parse : Parse)
    (isEmpty : IsEmpty) (fsys : FS) (g : FuncMap) (name nm : String)
    (ms as bs cs : List Meta) (m₁ m₂ : Meta)
    (hms : ms = as ++ m₁ :: bs ++ m₂ :: cs)
    (h₁ : m₁.Name = nm) (h₂ : m₂.Name = nm)
    (hcs : ∀ x ∈ cs, x.Name ≠ nm)
    (hne : isEmpty ((readFile fsys m₂.Path).getD "") = false)
    (hok : allFragsOk parse fsys g ms = true)
    (hinc : ms.any (fun m => m.Name == name) = true) :
    buildComposite parse isEmpty fsys name ms g =
      .ok ⟨defsAfter isEmpty fsys [] ms, funcsAfter g ms⟩ ∧
    lookupAL (defsAfter isEmpty fsys [] ms) nm =
      some ((readFile fsys m₂.Path).getD "") := by
  refine ⟨buildComposite_ok_of hok hinc, ?_⟩
  subst hms
  rw [defsAfter_append, defsAfter_cons, defsAfter_append, defsAfter_cons,
    lookup_defsAfter_none isEmpty fsys _ _ hcs, installDef, hne]
  simp [lookupAL, h₂]

/-- Witness for C10 (amended): two fragments both named `page`, the later
body `"B"` non-empty; the built composite defines `page` as `"B"`. -/
theorem duplicate_fragment_last_nonempty_wins_witness :
    buildComposite parseAll isEmptyBlank fsDup "page"
        [⟨"page", "p1", []⟩, ⟨"page", "p2", []⟩] [] =
      .ok ⟨defsAfter isEmptyBlank fsDup [] [⟨"page", "p1", []⟩, ⟨"page", "p2", []⟩],
        funcsAfter [] [⟨"page", "p1", []⟩, ⟨"page", "p2", []⟩]⟩ ∧
    lookupAL (defsAfter isEmptyBlank fsDup []
        [⟨"page", "p1", []⟩, ⟨"page", "p2", []⟩]) "page" =
      some ((readFile fsDup "p2").getD "") :=
  duplicate_fragment_last_nonempty_wins parseAll isEmptyBlank fsDup []
    "page" "page" [⟨"page", "p1", []⟩, ⟨"page", "p2", []⟩] [] [] []
    ⟨"page", "p1", []⟩ ⟨"page", "p2", []⟩ rfl rfl rfl
    (by intro x hx; exact absurd hx (by simp)) rfl (by decide) (by decide)

end Tplx
